import Mathlib

/-!
Verification of the PyOsmium building-geometry reconstruction and the CSV
benchmark-result writers of the UseCasesManagement benchmarking scripts.

The Python scripts are embedded shallowly:

* OSM data (`OsmNode`, `OsmWay`, `OsmRel`, `OsmInput`) model the elements a
  PBF file delivers to a `SimpleHandler`.  Applying a handler to a file is
  modelled as folding the handler's callbacks over the node list, then the
  way list, then the relation list, matching the sorted order of an OSM PBF
  file (nodes, then ways, then relations).
* Python `dict`s are insertion-ordered association lists (`dictInsert`
  updates in place or appends a fresh key at the end; `List.lookup` reads).
* Python `set`s are `Finset Nat`.
* Shapely geometry construction is kept symbolic: `Geom.poly outer holes`
  records the coordinate rings handed to `Polygon(outer, holes)` and
  `Geom.multipoly outers` the rings handed to
  `MultiPolygon([Polygon(o) for o in outers])`.  Every `Polygon` call in the
  embedded code receives rings of at least three coordinates, so the
  shapely constructor cannot raise and the surrounding `try/except` blocks
  are dead; the embedding is therefore total at those call sites.
* Coordinates are integer pairs; nothing in the reconstruction logic
  depends on the numeric type of a coordinate.
-/

namespace OsmBench

/-! ## OSM data model -/

abbrev NodeId := Nat
abbrev OsmId := Nat
abbrev Point := Int × Int

abbrev Tags := List (String × String)

/-- A node as delivered to a handler: its id and its location. -/
structure OsmNode where
  id : NodeId
  loc : Point
deriving DecidableEq, Repr

/-- A way as delivered to a handler: its id, its ordered node references and
its tags. -/
structure OsmWay where
  id : OsmId
  nodes : List NodeId
  tags : Tags
deriving DecidableEq, Repr

/-- Member type of a relation member (`m.type` in PyOsmium: `'n'`, `'w'`, `'r'`). -/
inductive MemberKind where
  | nd
  | wy
  | rl
deriving DecidableEq, Repr

/-- A relation member: reference, member type and role string. -/
structure OsmMember where
  ref : OsmId
  kind : MemberKind
  role : String
deriving DecidableEq, Repr

/-- A relation as delivered to a handler. -/
structure OsmRel where
  id : OsmId
  members : List OsmMember
  tags : Tags
deriving DecidableEq, Repr

/-- A whole OSM input file, already grouped in PBF order: nodes, ways,
relations. -/
structure OsmInput where
  nodes : List OsmNode
  ways : List OsmWay
  rels : List OsmRel
deriving DecidableEq, Repr

/-- `tags.get(k)` on a Python dict of tags. -/
def tagsGet (tags : Tags) (k : String) : Option String :=
  List.lookup k tags

/-- `k in tags` on a Python dict of tags. -/
def hasTag (tags : Tags) (k : String) : Bool :=
  (tagsGet tags k).isSome

/-- The relation filter used throughout the scripts:
`r.tags.get('type') == 'multipolygon' and 'building' in r.tags`. -/
def isBuildingMP (tags : Tags) : Bool :=
  (tagsGet tags "type" == some "multipolygon") && hasTag tags "building"

/-! ## Python dict as insertion-ordered association list -/

/-- `d[k] = v` on a Python dict: update the value in place when the key is
present, otherwise append the binding at the end. -/
def dictInsert {β : Type} (k : Nat) (v : β) : List (Nat × β) → List (Nat × β)
  | [] => [(k, v)]
  | (k', v') :: rest =>
      if k' = k then (k, v) :: rest else (k', v') :: dictInsert k v rest

@[simp] theorem lookup_dictInsert_self {β : Type} (k : Nat) (v : β) :
    ∀ d : List (Nat × β), List.lookup k (dictInsert k v d) = some v := by
  intro d
  induction d with
  | nil => simp [dictInsert, List.lookup]
  | cons kv rest ih =>
      obtain ⟨k', v'⟩ := kv
      by_cases h : k' = k
      · simp [dictInsert, h, List.lookup]
      · simp only [dictInsert, if_neg h, List.lookup]
        have : (k == k') = false := by
          simp [beq_iff_eq]
          omega
        simp [this, ih]

@[simp] theorem lookup_dictInsert_ne {β : Type} (k k' : Nat) (v : β) (h : k' ≠ k) :
    ∀ d : List (Nat × β),
      List.lookup k' (dictInsert k v d) = List.lookup k' d := by
  intro d
  have hbf : (k' == k) = false := beq_eq_false_iff_ne.mpr h
  induction d with
  | nil => simp [dictInsert, List.lookup, hbf]
  | cons kv rest ih =>
      obtain ⟨ka, va⟩ := kv
      by_cases hk : ka = k
      · subst hk
        simp [dictInsert, List.lookup, hbf]
      · simp [dictInsert, if_neg hk, List.lookup, ih]

/-- Appending a fresh key goes to the end of the dict. -/
theorem dictInsert_fresh {β : Type} (k : Nat) (v : β) :
    ∀ d : List (Nat × β), (∀ p ∈ d, p.1 ≠ k) → dictInsert k v d = d ++ [(k, v)] := by
  intro d
  induction d with
  | nil => intro _; rfl
  | cons kv rest ih =>
      intro hfresh
      obtain ⟨k', v'⟩ := kv
      have hne : k' ≠ k := hfresh (k', v') (by simp)
      simp [dictInsert, if_neg hne,
        ih (fun p hp => hfresh p (List.mem_cons_of_mem _ hp))]

/-! ## First pass: `IdCollectorHandler` of `uc1&2/uc1&2_pyosmium_benchmark.py`

The handler keeps two Python sets.  Its `relation` callback adds every
way-type member reference of a building multipolygon relation to
`required_ways`; its `way` callback adds the id of every way carrying a
`building` tag.  `collect_way_nodes` runs a second scan collecting every
node reference of the ways whose id landed in `required_ways`. -/

/-- `IdCollectorHandler.relation`. -/
def idCollectorRelation (s : Finset OsmId) (r : OsmRel) : Finset OsmId :=
  if isBuildingMP r.tags then
    r.members.foldl
      (fun acc m => if m.kind = MemberKind.wy then insert m.ref acc else acc) s
  else s

/-- `IdCollectorHandler.way`. -/
def idCollectorWay (s : Finset OsmId) (w : OsmWay) : Finset OsmId :=
  if hasTag w.tags "building" then insert w.id s else s

/-- The `required_ways` set after `IdCollectorHandler.apply_file`. -/
def requiredWaysOf (inp : OsmInput) : Finset OsmId :=
  inp.rels.foldl idCollectorRelation (inp.ways.foldl idCollectorWay ∅)

/-- `NodeCollector.way` inside `collect_way_nodes`. -/
def nodeCollectorWay (req : Finset OsmId) (s : Finset NodeId) (w : OsmWay) :
    Finset NodeId :=
  if w.id ∈ req then w.nodes.foldl (fun acc n => insert n acc) s else s

/-- The `required_nodes` set after `collect_way_nodes`. -/
def requiredNodesOf (inp : OsmInput) : Finset NodeId :=
  inp.ways.foldl (nodeCollectorWay (requiredWaysOf inp)) ∅

theorem mem_foldl_insert (l : List Nat) (init : Finset Nat) (x : Nat) :
    x ∈ l.foldl (fun acc n => insert n acc) init ↔ x ∈ init ∨ x ∈ l := by
  induction l generalizing init with
  | nil => simp
  | cons a rest ih =>
      simp only [List.foldl_cons, ih, Finset.mem_insert, List.mem_cons]
      tauto

theorem mem_foldl_members (ms : List OsmMember) (init : Finset OsmId) (x : OsmId) :
    x ∈ ms.foldl
        (fun acc m => if m.kind = MemberKind.wy then insert m.ref acc else acc)
        init ↔
      x ∈ init ∨ ∃ m ∈ ms, m.kind = MemberKind.wy ∧ m.ref = x := by
  induction ms generalizing init with
  | nil => simp
  | cons m rest ih =>
      simp only [List.foldl_cons, List.mem_cons]
      by_cases h : m.kind = MemberKind.wy
      · simp only [if_pos h, ih, Finset.mem_insert]
        constructor
        · rintro ((rfl | hx) | ⟨m', hm', hk, hr⟩)
          · exact Or.inr ⟨m, Or.inl rfl, h, rfl⟩
          · exact Or.inl hx
          · exact Or.inr ⟨m', Or.inr hm', hk, hr⟩
        · rintro (hx | ⟨m', (rfl | hm'), hk, hr⟩)
          · exact Or.inl (Or.inr hx)
          · exact Or.inl (Or.inl hr.symm)
          · exact Or.inr ⟨m', hm', hk, hr⟩
      · simp only [if_neg h, ih]
        constructor
        · rintro (hx | ⟨m', hm', hk, hr⟩)
          · exact Or.inl hx
          · exact Or.inr ⟨m', Or.inr hm', hk, hr⟩
        · rintro (hx | ⟨m', (rfl | hm'), hk, hr⟩)
          · exact Or.inl hx
          · exact absurd hk h
          · exact Or.inr ⟨m', hm', hk, hr⟩

theorem mem_foldl_idCollectorWay (ws : List OsmWay) (init : Finset OsmId) (x : OsmId) :
    x ∈ ws.foldl idCollectorWay init ↔
      x ∈ init ∨ ∃ w ∈ ws, hasTag w.tags "building" ∧ w.id = x := by
  induction ws generalizing init with
  | nil => simp
  | cons w rest ih =>
      simp only [List.foldl_cons, List.mem_cons, idCollectorWay]
      by_cases h : hasTag w.tags "building"
      · simp only [if_pos h, ih, Finset.mem_insert]
        constructor
        · rintro ((rfl | hx) | ⟨w', hw', hb, hid⟩)
          · exact Or.inr ⟨w, Or.inl rfl, h, rfl⟩
          · exact Or.inl hx
          · exact Or.inr ⟨w', Or.inr hw', hb, hid⟩
        · rintro (hx | ⟨w', (rfl | hw'), hb, hid⟩)
          · exact Or.inl (Or.inr hx)
          · exact Or.inl (Or.inl hid.symm)
          · exact Or.inr ⟨w', hw', hb, hid⟩
      · simp only [if_neg h, ih]
        constructor
        · rintro (hx | ⟨w', hw', hb, hid⟩)
          · exact Or.inl hx
          · exact Or.inr ⟨w', Or.inr hw', hb, hid⟩
        · rintro (hx | ⟨w', (rfl | hw'), hb, hid⟩)
          · exact Or.inl hx
          · exact absurd hb h
          · exact Or.inr ⟨w', hw', hb, hid⟩

theorem mem_foldl_idCollectorRelation (rs : List OsmRel) (init : Finset OsmId)
    (x : OsmId) :
    x ∈ rs.foldl idCollectorRelation init ↔
      x ∈ init ∨
        ∃ r ∈ rs, isBuildingMP r.tags ∧
          ∃ m ∈ r.members, m.kind = MemberKind.wy ∧ m.ref = x := by
  induction rs generalizing init with
  | nil => simp
  | cons r rest ih =>
      simp only [List.foldl_cons, List.mem_cons, idCollectorRelation]
      by_cases h : isBuildingMP r.tags
      · simp only [if_pos h, ih, mem_foldl_members]
        constructor
        · rintro ((hx | hm) | ⟨r', hr', hb, hm⟩)
          · exact Or.inl hx
          · exact Or.inr ⟨r, Or.inl rfl, h, hm⟩
          · exact Or.inr ⟨r', Or.inr hr', hb, hm⟩
        · rintro (hx | ⟨r', (rfl | hr'), hb, hm⟩)
          · exact Or.inl (Or.inl hx)
          · exact Or.inl (Or.inr hm)
          · exact Or.inr ⟨r', hr', hb, hm⟩
      · simp only [if_neg h, ih]
        constructor
        · rintro (hx | ⟨r', hr', hb, hm⟩)
          · exact Or.inl hx
          · exact Or.inr ⟨r', Or.inr hr', hb, hm⟩
        · rintro (hx | ⟨r', (rfl | hr'), hb, hm⟩)
          · exact Or.inl hx
          · exact absurd hb h
          · exact Or.inr ⟨r', hr', hb, hm⟩

theorem mem_foldl_nodeCollectorWay (req : Finset OsmId) (ws : List OsmWay)
    (init : Finset NodeId) (x : NodeId) :
    x ∈ ws.foldl (nodeCollectorWay req) init ↔
      x ∈ init ∨ ∃ w ∈ ws, w.id ∈ req ∧ x ∈ w.nodes := by
  induction ws generalizing init with
  | nil => simp
  | cons w rest ih =>
      simp only [List.foldl_cons, List.mem_cons, nodeCollectorWay]
      by_cases h : w.id ∈ req
      · simp only [if_pos h, ih, mem_foldl_insert]
        constructor
        · rintro ((hx | hn) | ⟨w', hw', hr, hn⟩)
          · exact Or.inl hx
          · exact Or.inr ⟨w, Or.inl rfl, h, hn⟩
          · exact Or.inr ⟨w', Or.inr hw', hr, hn⟩
        · rintro (hx | ⟨w', (rfl | hw'), hr, hn⟩)
          · exact Or.inl (Or.inl hx)
          · exact Or.inl (Or.inr hn)
          · exact Or.inr ⟨w', hw', hr, hn⟩
      · simp only [if_neg h, ih]
        constructor
        · rintro (hx | ⟨w', hw', hr, hn⟩)
          · exact Or.inl hx
          · exact Or.inr ⟨w', Or.inr hw', hr, hn⟩
        · rintro (hx | ⟨w', (rfl | hw'), hr, hn⟩)
          · exact Or.inl hx
          · exact absurd hr h
          · exact Or.inr ⟨w', hw', hr, hn⟩

/-- Claim C3: the first pass collects exactly the ids of ways that carry a
`building` tag or are way-type members of a relation tagged
`type=multipolygon` with a `building` tag, and the required-node set is
exactly the set of node references of the ways in the input whose id is
required. -/
theorem c3_required_sets_exact (inp : OsmInput) :
    (∀ wid : OsmId,
        wid ∈ requiredWaysOf inp ↔
          (∃ w ∈ inp.ways, hasTag w.tags "building" ∧ w.id = wid) ∨
          (∃ r ∈ inp.rels, isBuildingMP r.tags ∧
            ∃ m ∈ r.members, m.kind = MemberKind.wy ∧ m.ref = wid)) ∧
    (∀ nid : NodeId,
        nid ∈ requiredNodesOf inp ↔
          ∃ w ∈ inp.ways, w.id ∈ requiredWaysOf inp ∧ nid ∈ w.nodes) := by
  constructor
  · intro wid
    rw [requiredWaysOf, mem_foldl_idCollectorRelation, mem_foldl_idCollectorWay]
    simp only [Finset.not_mem_empty, false_or]
  · intro nid
    simp [requiredNodesOf, mem_foldl_nodeCollectorWay]

/-! ## Symbolic shapely geometry

`Geom.poly outer holes` records the rings handed to `Polygon(outer, holes)`;
`Geom.multipoly outers` the rings handed to
`MultiPolygon([Polygon(o) for o in outers])` (each without holes). -/

inductive Geom where
  | poly (outer : List Point) (holes : List (List Point))
  | multipoly (outers : List (List Point))
deriving DecidableEq, Repr

/-- All coordinate rings of a geometry. -/
def Geom.rings : Geom → List (List Point)
  | .poly o hs => o :: hs
  | .multipoly os => os

/-- The hole rings of a geometry.  A `MultiPolygon` built from hole-free
polygons has none. -/
def Geom.holeRings : Geom → List (List Point)
  | .poly _ hs => hs
  | .multipoly _ => []

/-! ## Second pass: `BuildingGeometryHandler` of
`uc1&2/uc1&2_pyosmium_benchmark.py` -/

/-- Entry of `ways_cache`: `{'nodes': [...], 'tags': {...}}`. -/
structure WayData where
  nodes : List NodeId
  tags : Tags
deriving DecidableEq, Repr

/-- Entry of `relations_cache`: `{'members': [...], 'tags': {...}}`. -/
structure RelData where
  members : List OsmMember
  tags : Tags
deriving DecidableEq, Repr

/-- One entry of `self.buildings`: `{'geometry': ..., 'tags': ...}`. -/
structure Building where
  geometry : Geom
  tags : Tags
deriving DecidableEq, Repr

abbrev NodesCache := List (NodeId × Point)
abbrev WaysCache := List (OsmId × WayData)

/-- The mutable state of `BuildingGeometryHandler`. -/
structure BGHState where
  required_nodes : Finset NodeId
  required_ways : Finset OsmId
  nodes_cache : NodesCache
  ways_cache : WaysCache
  relations_cache : List (OsmId × RelData)
deriving DecidableEq

/-- `BuildingGeometryHandler.node`. -/
def bghNode (s : BGHState) (n : OsmNode) : BGHState :=
  if n.id ∈ s.required_nodes then
    { s with nodes_cache := dictInsert n.id n.loc s.nodes_cache }
  else s

/-- `BuildingGeometryHandler.way`. -/
def bghWay (s : BGHState) (w : OsmWay) : BGHState :=
  if w.id ∈ s.required_ways then
    { s with ways_cache := dictInsert w.id ⟨w.nodes, w.tags⟩ s.ways_cache }
  else s

/-- `BuildingGeometryHandler.relation`. -/
def bghRel (s : BGHState) (r : OsmRel) : BGHState :=
  if isBuildingMP r.tags then
    { s with relations_cache := dictInsert r.id ⟨r.members, r.tags⟩ s.relations_cache }
  else s

/-- `BuildingGeometryHandler(...).apply_file(...)`: the callbacks folded over
the input in PBF order. -/
def bghApply (rn : Finset NodeId) (rw : Finset OsmId) (inp : OsmInput) : BGHState :=
  inp.rels.foldl bghRel
    (inp.ways.foldl bghWay
      (inp.nodes.foldl bghNode ⟨rn, rw, [], [], []⟩))

/-- `[self.nodes_cache[node_id] for node_id in way['nodes'] if node_id in
self.nodes_cache]`. -/
def resolvePoints (nc : NodesCache) (nids : List NodeId) : List Point :=
  nids.filterMap (fun nid => List.lookup nid nc)

/-- Accumulator of the member loop in `get_geodataframe`:
`outer_rings`, `inner_rings` and the ids added to `used_ways_in_relations`
while processing one relation. -/
structure RelAcc where
  outers : List (List Point)
  inners : List (List Point)
  used : List OsmId
deriving DecidableEq, Repr

/-- One iteration of `for way_id, way_type, way_role in rel_data['members']`.
The id is marked used before the four-point check, matching the source. -/
def memberStep (nc : NodesCache) (wc : WaysCache) (acc : RelAcc) (m : OsmMember) :
    RelAcc :=
  match m.kind, List.lookup m.ref wc with
  | MemberKind.wy, some wd =>
      let used := acc.used ++ [m.ref]
      let points := resolvePoints nc wd.nodes
      if 4 ≤ points.length then
        if m.role = "outer" then ⟨acc.outers ++ [points], acc.inners, used⟩
        else ⟨acc.outers, acc.inners ++ [points], used⟩
      else ⟨acc.outers, acc.inners, used⟩
  | _, _ => acc

/-- Processing one cached relation in `get_geodataframe`: the member loop
followed by the `if outer_rings:` geometry construction.  Returns the ids
marked used and the building appended, if any. -/
def assembleRelation (nc : NodesCache) (wc : WaysCache) (rd : RelData) :
    List OsmId × Option Building :=
  let acc := rd.members.foldl (memberStep nc wc) ⟨[], [], []⟩
  match acc.outers with
  | [] => (acc.used, none)
  | [o] => (acc.used, some ⟨Geom.poly o acc.inners, rd.tags⟩)
  | o1 :: o2 :: os => (acc.used, some ⟨Geom.multipoly (o1 :: o2 :: os), rd.tags⟩)

/-- The loop `for rel_data in self.relations_cache.values()`: accumulates
`used_ways_in_relations` and the relation-derived buildings. -/
def relationsPass (nc : NodesCache) (wc : WaysCache) (rds : List RelData) :
    Finset OsmId × List Building :=
  rds.foldl
    (fun st rd =>
      let p := assembleRelation nc wc rd
      (st.1 ∪ p.1.toFinset, st.2 ++ p.2.toList))
    (∅, [])

/-- One iteration of `for way_id, way_data in self.ways_cache.items()`. -/
def wayPassStep (nc : NodesCache) (used : Finset OsmId) (bs : List Building)
    (kv : OsmId × WayData) : List Building :=
  if hasTag kv.2.tags "building" ∧ kv.1 ∉ used then
    let points := resolvePoints nc kv.2.nodes
    if 4 ≤ points.length then bs ++ [⟨Geom.poly points [], kv.2.tags⟩] else bs
  else bs

/-- The standalone building-way loop of `get_geodataframe`. -/
def waysPass (nc : NodesCache) (used : Finset OsmId) (wc : WaysCache) :
    List Building :=
  wc.foldl (wayPassStep nc used) []

/-- `BuildingGeometryHandler.get_geodataframe`: the relation pass followed by
the standalone way pass, in source order. -/
def getGeodataframe (s : BGHState) : List Building :=
  let p := relationsPass s.nodes_cache s.ways_cache (s.relations_cache.map Prod.snd)
  p.2 ++ waysPass s.nodes_cache p.1 s.ways_cache

/-- The full two-pass pipeline of `uc1&2/uc1&2_pyosmium_benchmark.py`:
id collection, node collection, handler application, assembly. -/
def bghFromInput (inp : OsmInput) : BGHState :=
  bghApply (requiredNodesOf inp) (requiredWaysOf inp) inp

/-- The buildings produced by the two-pass reconstruction. -/
def twoPassBuildings (inp : OsmInput) : List Building :=
  getGeodataframe (bghFromInput inp)

/-- Geometry column of the two-pass result. -/
def twoPassGeoms (inp : OsmInput) : List Geom :=
  (twoPassBuildings inp).map Building.geometry

/-! ## Declarative characterisation of the member loop -/

/-- The rings a relation's member list contributes as outer rings: way-type
members resolved through `ways_cache` whose point list has at least four
entries and whose role is `outer`. -/
def qualifyingOuters (nc : NodesCache) (wc : WaysCache) (ms : List OsmMember) :
    List (List Point) :=
  ms.filterMap fun m =>
    match m.kind, List.lookup m.ref wc with
    | MemberKind.wy, some wd =>
        let pts := resolvePoints nc wd.nodes
        if 4 ≤ pts.length ∧ m.role = "outer" then some pts else none
    | _, _ => none

/-- The rings contributed as inner rings: as above but with any role other
than `outer`. -/
def qualifyingInners (nc : NodesCache) (wc : WaysCache) (ms : List OsmMember) :
    List (List Point) :=
  ms.filterMap fun m =>
    match m.kind, List.lookup m.ref wc with
    | MemberKind.wy, some wd =>
        let pts := resolvePoints nc wd.nodes
        if 4 ≤ pts.length ∧ m.role ≠ "outer" then some pts else none
    | _, _ => none

/-- The way ids a member list adds to `used_ways_in_relations`: every
way-type member reference found in `ways_cache`, regardless of ring size or
role. -/
def usedRefs (wc : WaysCache) (ms : List OsmMember) : List OsmId :=
  ms.filterMap fun m =>
    match m.kind, List.lookup m.ref wc with
    | MemberKind.wy, some _ => some m.ref
    | _, _ => none

theorem foldl_memberStep_eq (nc : NodesCache) (wc : WaysCache) :
    ∀ (ms : List OsmMember) (acc : RelAcc),
      ms.foldl (memberStep nc wc) acc =
        ⟨acc.outers ++ qualifyingOuters nc wc ms,
         acc.inners ++ qualifyingInners nc wc ms,
         acc.used ++ usedRefs wc ms⟩ := by
  intro ms
  induction ms with
  | nil => intro acc; simp [qualifyingOuters, qualifyingInners, usedRefs]
  | cons m rest ih =>
      intro acc
      simp only [List.foldl_cons, qualifyingOuters, qualifyingInners, usedRefs,
        List.filterMap_cons]
      cases hk : m.kind <;> cases hl : List.lookup m.ref wc <;>
        simp only [memberStep, hk, hl, ih, qualifyingOuters, qualifyingInners,
          usedRefs]
      case wy.some wd =>
        by_cases h4 : 4 ≤ (resolvePoints nc wd.nodes).length
        · by_cases hrole : m.role = "outer"
          · simp [h4, hrole, ih, List.append_assoc, qualifyingOuters,
              qualifyingInners, usedRefs]
          · simp [h4, hrole, ih, List.append_assoc, qualifyingOuters,
              qualifyingInners, usedRefs]
        · simp [h4, ih, List.append_assoc, qualifyingOuters, qualifyingInners,
            usedRefs]

theorem assembleRelation_acc (nc : NodesCache) (wc : WaysCache) (rd : RelData) :
    rd.members.foldl (memberStep nc wc) ⟨[], [], []⟩ =
      ⟨qualifyingOuters nc wc rd.members, qualifyingInners nc wc rd.members,
       usedRefs wc rd.members⟩ := by
  simpa using foldl_memberStep_eq nc wc rd.members ⟨[], [], []⟩

theorem assembleRelation_fst (nc : NodesCache) (wc : WaysCache) (rd : RelData) :
    (assembleRelation nc wc rd).1 = usedRefs wc rd.members := by
  rcases h : qualifyingOuters nc wc rd.members with _ | ⟨o, _ | ⟨o2, os⟩⟩ <;>
    simp [assembleRelation, assembleRelation_acc, h]

theorem relationsPass_snd (nc : NodesCache) (wc : WaysCache) :
    ∀ (rds : List RelData) (st : Finset OsmId × List Building),
      (rds.foldl
          (fun st rd =>
            let p := assembleRelation nc wc rd
            (st.1 ∪ p.1.toFinset, st.2 ++ p.2.toList)) st).2 =
        st.2 ++ rds.filterMap (fun rd => (assembleRelation nc wc rd).2) := by
  intro rds
  induction rds with
  | nil => intro st; simp
  | cons rd rest ih =>
      intro st
      simp only [List.foldl_cons, ih, List.filterMap_cons]
      rcases h : (assembleRelation nc wc rd).2 with _ | b <;> simp [h]

theorem mem_relationsPass_fst (nc : NodesCache) (wc : WaysCache) :
    ∀ (rds : List RelData) (st : Finset OsmId × List Building) (x : OsmId),
      x ∈ (rds.foldl
          (fun st rd =>
            let p := assembleRelation nc wc rd
            (st.1 ∪ p.1.toFinset, st.2 ++ p.2.toList)) st).1 ↔
        x ∈ st.1 ∨ ∃ rd ∈ rds, x ∈ usedRefs wc rd.members := by
  intro rds
  induction rds with
  | nil => intro st x; simp
  | cons rd rest ih =>
      intro st x
      rw [List.foldl_cons, ih]
      simp only [Finset.mem_union, List.mem_toFinset, List.mem_cons,
        assembleRelation_fst]
      constructor
      · rintro ((hx | hu) | ⟨rd', hrd', hu⟩)
        · exact Or.inl hx
        · exact Or.inr ⟨rd, Or.inl rfl, hu⟩
        · exact Or.inr ⟨rd', Or.inr hrd', hu⟩
      · rintro (hx | ⟨rd', (rfl | hrd'), hu⟩)
        · exact Or.inl (Or.inl hx)
        · exact Or.inl (Or.inr hu)
        · exact Or.inr ⟨rd', hrd', hu⟩

/-- The per-entry decision of the standalone way loop, as an `Option`. -/
def wayPassOpt (nc : NodesCache) (used : Finset OsmId) (kv : OsmId × WayData) :
    Option Building :=
  if hasTag kv.2.tags "building" ∧ kv.1 ∉ used then
    let points := resolvePoints nc kv.2.nodes
    if 4 ≤ points.length then some ⟨Geom.poly points [], kv.2.tags⟩ else none
  else none

theorem wayPassStep_eq (nc : NodesCache) (used : Finset OsmId)
    (bs : List Building) (kv : OsmId × WayData) :
    wayPassStep nc used bs kv = bs ++ (wayPassOpt nc used kv).toList := by
  by_cases h1 : hasTag kv.2.tags "building" ∧ kv.1 ∉ used
  · by_cases h2 : 4 ≤ (resolvePoints nc kv.2.nodes).length <;>
      simp [wayPassStep, wayPassOpt, h1, h2]
  · simp [wayPassStep, wayPassOpt, h1]

theorem waysPass_eq_filterMap (nc : NodesCache) (used : Finset OsmId) :
    ∀ (wc : WaysCache) (init : List Building),
      wc.foldl (wayPassStep nc used) init =
        init ++ wc.filterMap (wayPassOpt nc used) := by
  intro wc
  induction wc with
  | nil => intro init; simp
  | cons kv rest ih =>
      intro init
      simp only [List.foldl_cons, wayPassStep_eq, ih, List.filterMap_cons]
      rcases h : wayPassOpt nc used kv with _ | b <;> simp [h]

theorem relationsPass_buildings (nc : NodesCache) (wc : WaysCache)
    (rds : List RelData) :
    (relationsPass nc wc rds).2 =
      rds.filterMap (fun rd => (assembleRelation nc wc rd).2) := by
  unfold relationsPass
  rw [relationsPass_snd]
  simp

/-- `get_geodataframe` unfolded to its two filterMap passes. -/
theorem getGeodataframe_eq (s : BGHState) :
    getGeodataframe s =
      (s.relations_cache.map Prod.snd).filterMap
          (fun rd => (assembleRelation s.nodes_cache s.ways_cache rd).2) ++
        s.ways_cache.filterMap
          (wayPassOpt s.nodes_cache
            (relationsPass s.nodes_cache s.ways_cache
              (s.relations_cache.map Prod.snd)).1) := by
  simp only [getGeodataframe, waysPass]
  rw [waysPass_eq_filterMap, relationsPass_buildings]
  simp

theorem assembleRelation_eq (nc : NodesCache) (wc : WaysCache) (rd : RelData) :
    assembleRelation nc wc rd =
      (usedRefs wc rd.members,
       match qualifyingOuters nc wc rd.members with
       | [] => none
       | [o] => some ⟨Geom.poly o (qualifyingInners nc wc rd.members), rd.tags⟩
       | o1 :: o2 :: os => some ⟨Geom.multipoly (o1 :: o2 :: os), rd.tags⟩) := by
  simp only [assembleRelation, assembleRelation_acc]
  rcases hqo : qualifyingOuters nc wc rd.members with _ | ⟨o, _ | ⟨o2, os⟩⟩ <;>
    rfl

theorem qualifying_ring_sound (nc : NodesCache) (wc : WaysCache)
    (ms : List OsmMember) (ring : List Point)
    (h : ring ∈ qualifyingOuters nc wc ms ∨ ring ∈ qualifyingInners nc wc ms) :
    4 ≤ ring.length ∧ ∀ p ∈ ring, ∃ nid, List.lookup nid nc = some p := by
  have key : ∃ wd : WayData, ring = resolvePoints nc wd.nodes ∧ 4 ≤ ring.length := by
    rcases h with h | h
    · rw [qualifyingOuters, List.mem_filterMap] at h
      obtain ⟨m, _, hf⟩ := h
      revert hf
      cases hk : m.kind <;> cases hl : List.lookup m.ref wc <;>
        intro hf <;> simp at hf
      rename_i wd
      have h4 : 4 ≤ (resolvePoints nc wd.nodes).length := by tauto
      have hring : resolvePoints nc wd.nodes = ring := by tauto
      subst hring
      exact ⟨wd, rfl, h4⟩
    · rw [qualifyingInners, List.mem_filterMap] at h
      obtain ⟨m, _, hf⟩ := h
      revert hf
      cases hk : m.kind <;> cases hl : List.lookup m.ref wc <;>
        intro hf <;> simp at hf
      rename_i wd
      have h4 : 4 ≤ (resolvePoints nc wd.nodes).length := by tauto
      have hring : resolvePoints nc wd.nodes = ring := by tauto
      subst hring
      exact ⟨wd, rfl, h4⟩
  obtain ⟨wd, rfl, h4⟩ := key
  refine ⟨h4, fun p hp => ?_⟩
  rw [resolvePoints, List.mem_filterMap] at hp
  obtain ⟨nid, _, hnid⟩ := hp
  exact ⟨nid, hnid⟩

/-- Claim C9: every ring that `get_geodataframe` hands to a shapely polygon
constructor has at least four points, each resolved from the node cache;
candidate rings resolving to fewer than four points are silently dropped. -/
theorem c9_rings_sound (s : BGHState) :
    ∀ b ∈ getGeodataframe s, ∀ ring ∈ b.geometry.rings,
      4 ≤ ring.length ∧
        ∀ p ∈ ring, ∃ nid, List.lookup nid s.nodes_cache = some p := by
  intro b hb ring hr
  rw [getGeodataframe_eq, List.mem_append] at hb
  rcases hb with hb | hb
  · rw [List.mem_filterMap] at hb
    obtain ⟨rd, _, hf⟩ := hb
    rw [assembleRelation_eq] at hf
    rcases hqo : qualifyingOuters s.nodes_cache s.ways_cache rd.members with
      _ | ⟨o, _ | ⟨o2, os⟩⟩ <;> rw [hqo] at hf <;> simp only at hf
    · exact absurd hf (by simp)
    · have hb' : (⟨Geom.poly o (qualifyingInners s.nodes_cache s.ways_cache
          rd.members), rd.tags⟩ : Building) = b := Option.some.inj hf
      subst hb'
      simp only [Geom.rings, List.mem_cons] at hr
      rcases hr with rfl | hr
      · exact qualifying_ring_sound s.nodes_cache s.ways_cache rd.members ring
          (Or.inl (by rw [hqo]; exact List.mem_singleton.mpr rfl))
      · exact qualifying_ring_sound s.nodes_cache s.ways_cache rd.members ring
          (Or.inr hr)
    · have hb' : (⟨Geom.multipoly (o :: o2 :: os), rd.tags⟩ : Building) = b :=
        Option.some.inj hf
      subst hb'
      simp only [Geom.rings] at hr
      exact qualifying_ring_sound s.nodes_cache s.ways_cache rd.members ring
        (Or.inl (by rw [hqo]; exact hr))
  · rw [List.mem_filterMap] at hb
    obtain ⟨kv, _, hf⟩ := hb
    rw [wayPassOpt] at hf
    split at hf
    · simp at hf
      obtain ⟨h4, hb'⟩ := hf
      subst hb'
      simp only [Geom.rings, List.mem_cons, List.not_mem_nil, or_false] at hr
      subst hr
      refine ⟨h4, fun p hp => ?_⟩
      rw [resolvePoints, List.mem_filterMap] at hp
      obtain ⟨nid, _, hnid⟩ := hp
      exact ⟨nid, hnid⟩
    · exact absurd hf (by simp)

def c9WitState : BGHState :=
  ⟨∅, ∅,
   [(1, ((0 : Int), (0 : Int))), (2, (1, 0)), (3, (1, 1)), (4, (0, 1))],
   [(10, ⟨[1, 2, 3, 4, 1], [("building", "yes")]⟩)],
   []⟩

def c9WitRing : List Point := [(0, 0), (1, 0), (1, 1), (0, 1), (0, 0)]

def c9WitBuilding : Building := ⟨Geom.poly c9WitRing [], [("building", "yes")]⟩

theorem c9_witness :
    4 ≤ c9WitRing.length ∧
      ∀ p ∈ c9WitRing, ∃ nid, List.lookup nid c9WitState.nodes_cache = some p :=
  c9_rings_sound c9WitState c9WitBuilding (by decide) c9WitRing (by decide)

/-- Claim C1 (amended): a cached multipolygon relation with at least one
qualifying outer ring yields a building with the relation's tags; when there
is exactly one outer ring the geometry is a polygon whose holes are exactly
the qualifying inner rings, but with two or more outer rings the geometry
is a multipolygon without any holes — the inner rings are discarded. -/
theorem c1_relation_holes (s : BGHState) (rd : RelData)
    (hrd : rd ∈ s.relations_cache.map Prod.snd)
    (hne : qualifyingOuters s.nodes_cache s.ways_cache rd.members ≠ []) :
    ∃ b ∈ getGeodataframe s,
      b.tags = rd.tags ∧
      (∀ o, qualifyingOuters s.nodes_cache s.ways_cache rd.members = [o] →
        b.geometry =
          Geom.poly o (qualifyingInners s.nodes_cache s.ways_cache rd.members)) ∧
      (2 ≤ (qualifyingOuters s.nodes_cache s.ways_cache rd.members).length →
        b.geometry =
            Geom.multipoly (qualifyingOuters s.nodes_cache s.ways_cache rd.members) ∧
          b.geometry.holeRings = []) := by
  rcases hqo : qualifyingOuters s.nodes_cache s.ways_cache rd.members with
    _ | ⟨o, rest⟩
  · exact absurd hqo hne
  rcases rest with _ | ⟨o2, os⟩
  · refine ⟨⟨Geom.poly o (qualifyingInners s.nodes_cache s.ways_cache rd.members),
        rd.tags⟩, ?_, rfl, ?_, ?_⟩
    · rw [getGeodataframe_eq]
      apply List.mem_append_left
      refine List.mem_filterMap.mpr ⟨rd, hrd, ?_⟩
      rw [assembleRelation_eq, hqo]
    · intro o' h
      obtain rfl : o = o' := by simpa using h
      rfl
    · intro h2
      simp at h2
  · refine ⟨⟨Geom.multipoly (o :: o2 :: os), rd.tags⟩, ?_, rfl, ?_, ?_⟩
    · rw [getGeodataframe_eq]
      apply List.mem_append_left
      refine List.mem_filterMap.mpr ⟨rd, hrd, ?_⟩
      rw [assembleRelation_eq, hqo]
    · intro o' h
      simp at h
    · intro _
      exact ⟨rfl, rfl⟩

def c1WitMembers : List OsmMember :=
  [⟨101, MemberKind.wy, "outer"⟩, ⟨103, MemberKind.wy, "inner"⟩]

def c1RelTags : Tags := [("type", "multipolygon"), ("building", "yes")]

def c1WitState : BGHState :=
  ⟨∅, ∅,
   [(1, ((0 : Int), (0 : Int))), (2, (10, 0)), (3, (10, 10)), (4, (0, 10)),
    (9, (2, 2)), (10, (4, 2)), (11, (4, 4)), (12, (2, 4))],
   [(101, ⟨[1, 2, 3, 4, 1], []⟩), (103, ⟨[9, 10, 11, 12, 9], []⟩)],
   [(500, ⟨c1WitMembers, c1RelTags⟩)]⟩

theorem c1_witness :
    ∃ b ∈ getGeodataframe c1WitState,
      b.tags = c1RelTags ∧
      (∀ o, qualifyingOuters c1WitState.nodes_cache c1WitState.ways_cache
          c1WitMembers = [o] →
        b.geometry = Geom.poly o
          (qualifyingInners c1WitState.nodes_cache c1WitState.ways_cache
            c1WitMembers)) ∧
      (2 ≤ (qualifyingOuters c1WitState.nodes_cache c1WitState.ways_cache
          c1WitMembers).length →
        b.geometry = Geom.multipoly
            (qualifyingOuters c1WitState.nodes_cache c1WitState.ways_cache
              c1WitMembers) ∧
          b.geometry.holeRings = []) :=
  c1_relation_holes c1WitState ⟨c1WitMembers, c1RelTags⟩ (by decide) (by decide)

/-- A relation with two outer rings and one inner ring, all resolving to at
least four points: the input on which claim C1 as stated fails. -/
def c1Input : OsmInput :=
  ⟨[⟨1, (0, 0)⟩, ⟨2, (10, 0)⟩, ⟨3, (10, 10)⟩, ⟨4, (0, 10)⟩,
    ⟨5, (20, 0)⟩, ⟨6, (30, 0)⟩, ⟨7, (30, 10)⟩, ⟨8, (20, 10)⟩,
    ⟨9, (2, 2)⟩, ⟨10, (4, 2)⟩, ⟨11, (4, 4)⟩, ⟨12, (2, 4)⟩],
   [⟨101, [1, 2, 3, 4, 1], []⟩, ⟨102, [5, 6, 7, 8, 5], []⟩,
    ⟨103, [9, 10, 11, 12, 9], []⟩],
   [⟨500, [⟨101, MemberKind.wy, "outer"⟩, ⟨102, MemberKind.wy, "outer"⟩,
      ⟨103, MemberKind.wy, "inner"⟩], c1RelTags⟩]⟩

def c1Outer1 : List Point := [(0, 0), (10, 0), (10, 10), (0, 10), (0, 0)]

def c1Outer2 : List Point := [(20, 0), (30, 0), (30, 10), (20, 10), (20, 0)]

def c1Inner : List Point := [(2, 2), (4, 2), (4, 4), (2, 4), (2, 2)]

/-- Claim C1 (counterexample): on `c1Input` the relation has a qualifying
inner ring, yet the produced geometry is a multipolygon with no holes, so
the inner ring is not included as a hole when there are several outer
rings. -/
theorem c1_counterexample :
    twoPassBuildings c1Input =
        [⟨Geom.multipoly [c1Outer1, c1Outer2], c1RelTags⟩] ∧
      qualifyingInners (bghFromInput c1Input).nodes_cache
          (bghFromInput c1Input).ways_cache
          [⟨101, MemberKind.wy, "outer"⟩, ⟨102, MemberKind.wy, "outer"⟩,
           ⟨103, MemberKind.wy, "inner"⟩] = [c1Inner] ∧
      (Geom.multipoly [c1Outer1, c1Outer2]).holeRings = [] := by
  decide

theorem filterMap_filter_eq {α β : Type} (f : α → Option β) (p : α → Bool)
    (hnone : ∀ a, p a = false → f a = none) :
    ∀ l : List α, (l.filter p).filterMap f = l.filterMap f := by
  intro l
  induction l with
  | nil => rfl
  | cons a rest ih =>
      by_cases hp : p a = true
      · simp [List.filter_cons, hp, List.filterMap_cons, ih]
      · have hp' : p a = false := by simpa using hp
        simp [List.filter_cons, hp', List.filterMap_cons, hnone a hp', ih]

/-- Claim C8 (amended): a way id that occurs as a way-type member of a
cached relation and is present in `ways_cache` is marked used — even when
that relation yields no geometry — and contributes nothing to the
standalone building-way pass: dropping its cache entry leaves the way pass
unchanged. -/
theorem c8_used_ways_excluded (s : BGHState) (wid : OsmId)
    (h : ∃ rd ∈ s.relations_cache.map Prod.snd,
          ∃ m ∈ rd.members, m.kind = MemberKind.wy ∧ m.ref = wid)
    (hc : (List.lookup wid s.ways_cache).isSome) :
    wid ∈ (relationsPass s.nodes_cache s.ways_cache
            (s.relations_cache.map Prod.snd)).1 ∧
      waysPass s.nodes_cache
          (relationsPass s.nodes_cache s.ways_cache
            (s.relations_cache.map Prod.snd)).1 s.ways_cache =
        waysPass s.nodes_cache
          (relationsPass s.nodes_cache s.ways_cache
            (s.relations_cache.map Prod.snd)).1
          (s.ways_cache.filter (fun kv => kv.1 != wid)) := by
  obtain ⟨rd, hrd, m, hm, hk, hr⟩ := h
  obtain ⟨wd, hwd⟩ := Option.isSome_iff_exists.mp hc
  have hused : wid ∈ (relationsPass s.nodes_cache s.ways_cache
      (s.relations_cache.map Prod.snd)).1 := by
    unfold relationsPass
    rw [mem_relationsPass_fst]
    refine Or.inr ⟨rd, hrd, ?_⟩
    refine List.mem_filterMap.mpr ⟨m, hm, ?_⟩
    rw [hk, hr, hwd]
  refine ⟨hused, ?_⟩
  unfold waysPass
  rw [waysPass_eq_filterMap, waysPass_eq_filterMap]
  rw [filterMap_filter_eq]
  intro kv hneq
  have hkv : kv.1 = wid := by simpa using hneq
  have hneg : ¬(hasTag kv.2.tags "building" = true ∧
      kv.1 ∉ (relationsPass s.nodes_cache s.ways_cache
        (s.relations_cache.map Prod.snd)).1) := by
    rw [hkv]
    exact fun hcontra => hcontra.2 hused
  rw [wayPassOpt, if_neg hneg]

def c8Ring : List Point := [(0, 0), (10, 0), (10, 10), (0, 10), (0, 0)]

def c8RelTagsA : Tags := [("type", "multipolygon"), ("building", "yes"), ("name", "a")]

def c8RelTagsB : Tags := [("type", "multipolygon"), ("building", "yes"), ("name", "b")]

/-- One building-tagged closed way shared as outer ring by two cached
multipolygon relations. -/
def c8Input : OsmInput :=
  ⟨[⟨1, (0, 0)⟩, ⟨2, (10, 0)⟩, ⟨3, (10, 10)⟩, ⟨4, (0, 10)⟩],
   [⟨201, [1, 2, 3, 4, 1], [("building", "yes")]⟩],
   [⟨601, [⟨201, MemberKind.wy, "outer"⟩], c8RelTagsA⟩,
    ⟨602, [⟨201, MemberKind.wy, "outer"⟩], c8RelTagsB⟩]⟩

/-- Claim C8 (counterexample): on `c8Input` the single cached way 201 is a
member of two cached relations and its ring appears in two output
buildings, so a cached way can contribute to more than one output
building. -/
theorem c8_counterexample :
    twoPassBuildings c8Input =
        [⟨Geom.poly c8Ring [], c8RelTagsA⟩, ⟨Geom.poly c8Ring [], c8RelTagsB⟩] ∧
      2 ≤ ((twoPassBuildings c8Input).filter
            (fun b => decide (c8Ring ∈ b.geometry.rings))).length := by
  decide

/-- A cached relation whose only member has role `inner`: it yields no
geometry, yet still marks way 301 as used. -/
def c8WitState : BGHState :=
  ⟨∅, ∅,
   [(1, ((0 : Int), (0 : Int))), (2, (5, 0)), (3, (5, 5)), (4, (0, 5))],
   [(301, ⟨[1, 2, 3, 4, 1], [("building", "yes")]⟩)],
   [(700, ⟨[⟨301, MemberKind.wy, "inner"⟩],
      [("type", "multipolygon"), ("building", "yes")]⟩)]⟩

theorem c8_witness :
    301 ∈ (relationsPass c8WitState.nodes_cache c8WitState.ways_cache
            (c8WitState.relations_cache.map Prod.snd)).1 ∧
      waysPass c8WitState.nodes_cache
          (relationsPass c8WitState.nodes_cache c8WitState.ways_cache
            (c8WitState.relations_cache.map Prod.snd)).1 c8WitState.ways_cache =
        waysPass c8WitState.nodes_cache
          (relationsPass c8WitState.nodes_cache c8WitState.ways_cache
            (c8WitState.relations_cache.map Prod.snd)).1
          (c8WitState.ways_cache.filter (fun kv => kv.1 != 301)) :=
  c8_used_ways_excluded c8WitState 301 (by decide) (by decide)

/-! ## Single-pass `BuildingHandler` of `uc1&2_pyosmium_benchmark.py`

This sibling script reconstructs buildings in one pass: its `way` callback
caches every closed way with more than two node references as a shapely
polygon (skipping ways with an unavailable node location, which raise
`InvalidLocationError`), and appends a building for building-tagged ways;
its `relation` callback assembles
`Polygon(outer_rings[0].exterior.coords, [h.exterior.coords for h in inner_rings])`
from the cached ways of `outer`/`inner` role members. -/

/-- `polygon.exterior.coords`: shapely returns the ring closed (the first
coordinate repeated at the end when the input ring was not closed). -/
def closeRing : List Point → List Point
  | [] => []
  | p :: rest =>
      if (p :: rest).getLast? = some p then p :: rest else (p :: rest) ++ [p]

/-- osmium `w.is_closed()`: first and last node reference coincide. -/
def isClosedWay (nids : List NodeId) : Bool :=
  nids.head? == nids.getLast?

/-- `[(n.lon, n.lat) for n in w.nodes]` with `locations=True`: `none` when a
node location is unavailable and `InvalidLocationError` is raised, aborting
the whole comprehension. -/
def resolveAllPoints (nidx : NodesCache) : List NodeId → Option (List Point)
  | [] => some []
  | nid :: rest =>
      match List.lookup nid nidx, resolveAllPoints nidx rest with
      | some p, some ps => some (p :: ps)
      | _, _ => none

/-- The node-location index osmium builds for `apply_file(..., locations=True)`. -/
def nodeIndexOf (inp : OsmInput) : NodesCache :=
  inp.nodes.foldl (fun m nd => dictInsert nd.id nd.loc m) []

/-- One entry of the single-pass handler's `buildings`:
`{'osm_id', 'geometry', 'name'}`. -/
structure BHBuilding where
  osm_id : String
  geometry : Geom
  name : Option String
deriving DecidableEq, Repr

/-- Mutable state of the single-pass `BuildingHandler`: cached way polygons
(symbolically, their coordinate rings) and the building list. -/
structure BHState where
  ways_cache : List (OsmId × List Point)
  buildings : List BHBuilding
deriving DecidableEq, Repr

/-- `BuildingHandler.way` of the single-pass script. -/
def bhWay (nidx : NodesCache) (s : BHState) (w : OsmWay) : BHState :=
  if isClosedWay w.nodes ∧ 2 < w.nodes.length then
    match resolveAllPoints nidx w.nodes with
    | none => s
    | some coords =>
        let s1 : BHState := ⟨dictInsert w.id coords s.ways_cache, s.buildings⟩
        if hasTag w.tags "building" then
          ⟨s1.ways_cache,
           s1.buildings ++
             [⟨"way/" ++ toString w.id, Geom.poly coords [],
               tagsGet w.tags "name"⟩]⟩
        else s1
  else s

/-- `BuildingHandler.relation` of the single-pass script. -/
def bhRel (s : BHState) (r : OsmRel) : BHState :=
  if hasTag r.tags "building" ∧ tagsGet r.tags "type" = some "multipolygon" then
    let outs := r.members.filterMap
      (fun m => if m.role = "outer" then List.lookup m.ref s.ways_cache else none)
    let ins := r.members.filterMap
      (fun m => if m.role = "inner" then List.lookup m.ref s.ways_cache else none)
    match outs with
    | [] => s
    | o :: _ =>
        ⟨s.ways_cache,
         s.buildings ++
           [⟨"relation/" ++ toString r.id,
             Geom.poly (closeRing o) (ins.map closeRing),
             tagsGet r.tags "name"⟩]⟩
  else s

/-- `BuildingHandler(...).apply_file(..., locations=True)` over an input in
PBF order. -/
def bhApply (inp : OsmInput) : BHState :=
  inp.rels.foldl bhRel (inp.ways.foldl (bhWay (nodeIndexOf inp)) ⟨[], []⟩)

/-- The buildings produced by the single-pass reconstruction. -/
def singlePassBuildings (inp : OsmInput) : List BHBuilding :=
  (bhApply inp).buildings

/-- Geometry column of the single-pass result. -/
def singlePassGeoms (inp : OsmInput) : List Geom :=
  (singlePassBuildings inp).map BHBuilding.geometry

/-- An unclosed building-tagged way with four resolvable nodes: the single
pass rejects it (`is_closed()` fails) while the two-pass routine builds a
polygon from it. -/
def c4Input : OsmInput :=
  ⟨[⟨1, (0, 0)⟩, ⟨2, (10, 0)⟩, ⟨3, (10, 10)⟩, ⟨4, (0, 10)⟩],
   [⟨401, [1, 2, 3, 4], [("building", "yes")]⟩],
   []⟩

/-- Claim C4 (counterexample): the duplicated handlers do not compute the
same geometries; on `c4Input` the single-pass handler produces no building
while the two-pass handler produces one. -/
theorem c4_counterexample :
    singlePassGeoms c4Input ≠ twoPassGeoms c4Input ∧
      singlePassGeoms c4Input = [] ∧
      twoPassGeoms c4Input =
        [Geom.poly [(0, 0), (10, 0), (10, 10), (0, 10)] []] := by
  decide

/-! ### State-projection lemmas for the two-pass handler -/

theorem bghNode_ways_cache (s : BGHState) (n : OsmNode) :
    (bghNode s n).ways_cache = s.ways_cache := by
  unfold bghNode; split <;> rfl

theorem bghNode_relations_cache (s : BGHState) (n : OsmNode) :
    (bghNode s n).relations_cache = s.relations_cache := by
  unfold bghNode; split <;> rfl

theorem bghNode_required_nodes (s : BGHState) (n : OsmNode) :
    (bghNode s n).required_nodes = s.required_nodes := by
  unfold bghNode; split <;> rfl

theorem bghNode_required_ways (s : BGHState) (n : OsmNode) :
    (bghNode s n).required_ways = s.required_ways := by
  unfold bghNode; split <;> rfl

theorem bghNode_nodes_cache (s : BGHState) (n : OsmNode) :
    (bghNode s n).nodes_cache =
      if n.id ∈ s.required_nodes then dictInsert n.id n.loc s.nodes_cache
      else s.nodes_cache := by
  unfold bghNode; split <;> simp_all

theorem bghWay_nodes_cache (s : BGHState) (w : OsmWay) :
    (bghWay s w).nodes_cache = s.nodes_cache := by
  unfold bghWay; split <;> rfl

theorem bghWay_relations_cache (s : BGHState) (w : OsmWay) :
    (bghWay s w).relations_cache = s.relations_cache := by
  unfold bghWay; split <;> rfl

theorem bghWay_required_ways (s : BGHState) (w : OsmWay) :
    (bghWay s w).required_ways = s.required_ways := by
  unfold bghWay; split <;> rfl

theorem bghWay_required_nodes (s : BGHState) (w : OsmWay) :
    (bghWay s w).required_nodes = s.required_nodes := by
  unfold bghWay; split <;> rfl

theorem bghRel_nodes_cache (s : BGHState) (r : OsmRel) :
    (bghRel s r).nodes_cache = s.nodes_cache := by
  unfold bghRel; split <;> rfl

theorem bghRel_ways_cache (s : BGHState) (r : OsmRel) :
    (bghRel s r).ways_cache = s.ways_cache := by
  unfold bghRel; split <;> rfl

theorem foldl_bghNode_nodes_cache :
    ∀ (ns : List OsmNode) (s : BGHState),
      (ns.foldl bghNode s).nodes_cache =
        ns.foldl
          (fun m nd =>
            if nd.id ∈ s.required_nodes then dictInsert nd.id nd.loc m else m)
          s.nodes_cache := by
  intro ns
  induction ns with
  | nil => intro s; rfl
  | cons n rest ih =>
      intro s
      simp only [List.foldl_cons]
      rw [ih (bghNode s n), bghNode_required_nodes, bghNode_nodes_cache]

theorem foldl_bghNode_ways_cache :
    ∀ (ns : List OsmNode) (s : BGHState),
      (ns.foldl bghNode s).ways_cache = s.ways_cache := by
  intro ns
  induction ns with
  | nil => intro s; rfl
  | cons n rest ih =>
      intro s
      simp only [List.foldl_cons]
      rw [ih (bghNode s n), bghNode_ways_cache]

theorem foldl_bghNode_relations_cache :
    ∀ (ns : List OsmNode) (s : BGHState),
      (ns.foldl bghNode s).relations_cache = s.relations_cache := by
  intro ns
  induction ns with
  | nil => intro s; rfl
  | cons n rest ih =>
      intro s
      simp only [List.foldl_cons]
      rw [ih (bghNode s n), bghNode_relations_cache]

theorem foldl_bghNode_required_ways :
    ∀ (ns : List OsmNode) (s : BGHState),
      (ns.foldl bghNode s).required_ways = s.required_ways := by
  intro ns
  induction ns with
  | nil => intro s; rfl
  | cons n rest ih =>
      intro s
      simp only [List.foldl_cons]
      rw [ih (bghNode s n), bghNode_required_ways]

theorem foldl_bghNode_required_nodes :
    ∀ (ns : List OsmNode) (s : BGHState),
      (ns.foldl bghNode s).required_nodes = s.required_nodes := by
  intro ns
  induction ns with
  | nil => intro s; rfl
  | cons n rest ih =>
      intro s
      simp only [List.foldl_cons]
      rw [ih (bghNode s n), bghNode_required_nodes]

theorem foldl_bghWay_nodes_cache :
    ∀ (ws : List OsmWay) (s : BGHState),
      (ws.foldl bghWay s).nodes_cache = s.nodes_cache := by
  intro ws
  induction ws with
  | nil => intro s; rfl
  | cons w rest ih =>
      intro s
      simp only [List.foldl_cons]
      rw [ih (bghWay s w), bghWay_nodes_cache]

theorem foldl_bghWay_relations_cache :
    ∀ (ws : List OsmWay) (s : BGHState),
      (ws.foldl bghWay s).relations_cache = s.relations_cache := by
  intro ws
  induction ws with
  | nil => intro s; rfl
  | cons w rest ih =>
      intro s
      simp only [List.foldl_cons]
      rw [ih (bghWay s w), bghWay_relations_cache]

theorem foldl_bghRel_nodes_cache :
    ∀ (rs : List OsmRel) (s : BGHState),
      (rs.foldl bghRel s).nodes_cache = s.nodes_cache := by
  intro rs
  induction rs with
  | nil => intro s; rfl
  | cons r rest ih =>
      intro s
      simp only [List.foldl_cons]
      rw [ih (bghRel s r), bghRel_nodes_cache]

theorem foldl_bghRel_ways_cache :
    ∀ (rs : List OsmRel) (s : BGHState),
      (rs.foldl bghRel s).ways_cache = s.ways_cache := by
  intro rs
  induction rs with
  | nil => intro s; rfl
  | cons r rest ih =>
      intro s
      simp only [List.foldl_cons]
      rw [ih (bghRel s r), bghRel_ways_cache]

theorem foldl_bghWay_cache :
    ∀ (ws : List OsmWay) (s : BGHState),
      (ws.map OsmWay.id).Nodup →
      (∀ w ∈ ws, ∀ p ∈ s.ways_cache, p.1 ≠ w.id) →
      (ws.foldl bghWay s).ways_cache =
        s.ways_cache ++
          (ws.filter (fun w => decide (w.id ∈ s.required_ways))).map
            (fun w => (w.id, ⟨w.nodes, w.tags⟩)) := by
  intro ws
  induction ws with
  | nil => intro s _ _; simp
  | cons w rest ih =>
      intro s hnodup hfresh
      simp only [List.foldl_cons, List.filter_cons]
      rw [List.map_cons, List.nodup_cons] at hnodup
      by_cases hreq : w.id ∈ s.required_ways
      · have hway : bghWay s w =
            { s with ways_cache := dictInsert w.id ⟨w.nodes, w.tags⟩ s.ways_cache } := by
          unfold bghWay; rw [if_pos hreq]
        have hcache : dictInsert w.id (⟨w.nodes, w.tags⟩ : WayData) s.ways_cache =
            s.ways_cache ++ [(w.id, ⟨w.nodes, w.tags⟩)] :=
          dictInsert_fresh _ _ _ (fun p hp => hfresh w (by simp) p hp)
        rw [hway, ih _ hnodup.2 ?fresh]
        case fresh =>
          intro w' hw' p hp
          simp only [hcache, List.mem_append, List.mem_singleton] at hp
          rcases hp with hp | rfl
          · exact hfresh w' (List.mem_cons_of_mem _ hw') p hp
          · intro he
            have he' : w.id = w'.id := he
            exact hnodup.1 (by rw [he']; exact List.mem_map_of_mem OsmWay.id hw')
        simp [hcache, hreq, List.append_assoc]
      · have hway : bghWay s w = s := by
          unfold bghWay; rw [if_neg hreq]
        rw [hway, ih s hnodup.2
          (fun w' hw' p hp => hfresh w' (List.mem_cons_of_mem _ hw') p hp)]
        simp [hreq]

theorem lookup_filtered_foldl (rn : Finset NodeId) :
    ∀ (ns : List OsmNode) (m0 m1 : NodesCache) (nid : NodeId),
      (List.lookup nid m0 = if nid ∈ rn then List.lookup nid m1 else none) →
      List.lookup nid
          (ns.foldl
            (fun m nd => if nd.id ∈ rn then dictInsert nd.id nd.loc m else m)
            m0) =
        if nid ∈ rn then
          List.lookup nid (ns.foldl (fun m nd => dictInsert nd.id nd.loc m) m1)
        else none := by
  intro ns
  induction ns with
  | nil => intro m0 m1 nid h; exact h
  | cons nd rest ih =>
      intro m0 m1 nid h
      simp only [List.foldl_cons]
      apply ih
      by_cases hr : nid ∈ rn
      · by_cases hnid : nid = nd.id
        · subst hnid
          simp [hr, lookup_dictInsert_self]
        · by_cases hm : nd.id ∈ rn <;>
            simp [hr, hm, lookup_dictInsert_ne _ _ _ hnid, h]
      · by_cases hnid : nid = nd.id
        · subst hnid
          simp [hr, h]
        · by_cases hm : nd.id ∈ rn <;>
            simp [hr, hm, lookup_dictInsert_ne _ _ _ hnid, h]

theorem bghFromInput_required_ways (inp : OsmInput) :
    (bghFromInput inp).required_ways = requiredWaysOf inp := by
  unfold bghFromInput bghApply
  have h1 : ∀ (rs : List OsmRel) (s : BGHState),
      (rs.foldl bghRel s).required_ways = s.required_ways := by
    intro rs
    induction rs with
    | nil => intro s; rfl
    | cons r rest ih =>
        intro s
        simp only [List.foldl_cons]
        rw [ih (bghRel s r)]
        unfold bghRel; split <;> rfl
  have h2 : ∀ (ws : List OsmWay) (s : BGHState),
      (ws.foldl bghWay s).required_ways = s.required_ways := by
    intro ws
    induction ws with
    | nil => intro s; rfl
    | cons w rest ih =>
        intro s
        simp only [List.foldl_cons]
        rw [ih (bghWay s w), bghWay_required_ways]
  rw [h1, h2, foldl_bghNode_required_ways]

theorem bghFromInput_nodes_lookup (inp : OsmInput) (nid : NodeId) :
    List.lookup nid (bghFromInput inp).nodes_cache =
      if nid ∈ requiredNodesOf inp then List.lookup nid (nodeIndexOf inp)
      else none := by
  unfold bghFromInput bghApply
  rw [foldl_bghRel_nodes_cache, foldl_bghWay_nodes_cache,
    foldl_bghNode_nodes_cache]
  exact lookup_filtered_foldl (requiredNodesOf inp) inp.nodes [] [] nid (by simp)

theorem bghFromInput_ways_cache (inp : OsmInput)
    (hnodup : (inp.ways.map OsmWay.id).Nodup) :
    (bghFromInput inp).ways_cache =
      (inp.ways.filter (fun w => decide (w.id ∈ requiredWaysOf inp))).map
        (fun w => (w.id, ⟨w.nodes, w.tags⟩)) := by
  unfold bghFromInput bghApply
  rw [foldl_bghRel_ways_cache]
  have hways : (inp.nodes.foldl bghNode
      ⟨requiredNodesOf inp, requiredWaysOf inp, [], [], []⟩).ways_cache = [] :=
    foldl_bghNode_ways_cache inp.nodes _
  have hreq : (inp.nodes.foldl bghNode
      ⟨requiredNodesOf inp, requiredWaysOf inp, [], [], []⟩).required_ways =
      requiredWaysOf inp :=
    foldl_bghNode_required_ways inp.nodes _
  rw [foldl_bghWay_cache inp.ways _ hnodup (by rw [hways]; simp), hways, hreq]
  simp

theorem bghFromInput_relations_cache (inp : OsmInput) (h : inp.rels = []) :
    (bghFromInput inp).relations_cache = [] := by
  unfold bghFromInput bghApply
  rw [h, List.foldl_nil, foldl_bghWay_relations_cache,
    foldl_bghNode_relations_cache]

/-! ### Single-pass way callback as a per-way option -/

/-- Per-way decision of the single-pass `way` callback. -/
def bhWayOpt (nidx : NodesCache) (w : OsmWay) : Option BHBuilding :=
  if isClosedWay w.nodes ∧ 2 < w.nodes.length then
    match resolveAllPoints nidx w.nodes with
    | none => none
    | some coords =>
        if hasTag w.tags "building" then
          some ⟨"way/" ++ toString w.id, Geom.poly coords [],
            tagsGet w.tags "name"⟩
        else none
  else none

theorem bhWay_buildings (nidx : NodesCache) (s : BHState) (w : OsmWay) :
    (bhWay nidx s w).buildings = s.buildings ++ (bhWayOpt nidx w).toList := by
  unfold bhWay bhWayOpt
  split
  · rcases hresv : resolveAllPoints nidx w.nodes with _ | coords
    · simp
    · by_cases hb : hasTag w.tags "building" <;> simp [hb]
  · simp

theorem foldl_bhWay_buildings (nidx : NodesCache) :
    ∀ (ws : List OsmWay) (s : BHState),
      (ws.foldl (bhWay nidx) s).buildings =
        s.buildings ++ ws.filterMap (bhWayOpt nidx) := by
  intro ws
  induction ws with
  | nil => intro s; simp
  | cons w rest ih =>
      intro s
      simp only [List.foldl_cons, List.filterMap_cons]
      rw [ih (bhWay nidx s w), bhWay_buildings]
      rcases h : bhWayOpt nidx w with _ | b <;> simp [h]

theorem resolveAllPoints_total (nidx : NodesCache) :
    ∀ nids : List NodeId,
      (∀ nid ∈ nids, (List.lookup nid nidx).isSome) →
      ∃ ps, resolveAllPoints nidx nids = some ps ∧ ps.length = nids.length := by
  intro nids
  induction nids with
  | nil => intro _; exact ⟨[], rfl, rfl⟩
  | cons nid rest ih =>
      intro h
      obtain ⟨p, hp⟩ := Option.isSome_iff_exists.mp (h nid (by simp))
      obtain ⟨ps, hps, hlen⟩ := ih (fun n hn => h n (List.mem_cons_of_mem _ hn))
      refine ⟨p :: ps, ?_, by simp [hlen]⟩
      simp [resolveAllPoints, hp, hps]

theorem resolvePoints_of_resolveAll {nc idx : NodesCache} {rn : Finset NodeId}
    (hcache : ∀ nid, List.lookup nid nc =
      if nid ∈ rn then List.lookup nid idx else none) :
    ∀ (nids : List NodeId) (ps : List Point),
      (∀ nid ∈ nids, nid ∈ rn) →
      resolveAllPoints idx nids = some ps →
      resolvePoints nc nids = ps := by
  intro nids
  induction nids with
  | nil =>
      intro ps _ h
      simp only [resolveAllPoints, Option.some.injEq] at h
      simp [resolvePoints, ← h]
  | cons nid rest ih =>
      intro ps hmem hres
      unfold resolveAllPoints at hres
      rcases hl : List.lookup nid idx with _ | p <;> rw [hl] at hres
      · simp at hres
      · rcases hr : resolveAllPoints idx rest with _ | qs <;> rw [hr] at hres
        · simp at hres
        · have hps : p :: qs = ps := by simpa using hres
          subst hps
          have hnc : List.lookup nid nc = some p := by
            rw [hcache, if_pos (hmem nid (by simp)), hl]
          have hrest := ih qs (fun n hn => hmem n (List.mem_cons_of_mem _ hn)) hr
          simp only [resolvePoints, List.filterMap_cons, hnc] at hrest ⊢
          rw [hrest]

theorem mem_requiredWays_of_building {inp : OsmInput} (hnorel : inp.rels = [])
    {w : OsmWay} (hw : w ∈ inp.ways) (hb : hasTag w.tags "building") :
    w.id ∈ requiredWaysOf inp := by
  unfold requiredWaysOf
  rw [hnorel, List.foldl_nil, mem_foldl_idCollectorWay]
  exact Or.inr ⟨w, hw, hb, rfl⟩

theorem mem_requiredNodes_of {inp : OsmInput} {w : OsmWay} (hw : w ∈ inp.ways)
    (hreq : w.id ∈ requiredWaysOf inp) {nid : NodeId} (hn : nid ∈ w.nodes) :
    nid ∈ requiredNodesOf inp := by
  unfold requiredNodesOf
  rw [mem_foldl_nodeCollectorWay]
  exact Or.inr ⟨w, hw, hreq, hn⟩

theorem filterMap_filter_if {α β : Type} (p : α → Bool) (f : α → Option β) :
    ∀ l : List α,
      (l.filter p).filterMap f =
        l.filterMap (fun a => if p a then f a else none) := by
  intro l
  induction l with
  | nil => rfl
  | cons a rest ih =>
      by_cases hp : p a = true
      · simp [List.filter_cons, hp, List.filterMap_cons, ih]
      · have hp' : p a = false := by simpa using hp
        simp [List.filter_cons, hp', List.filterMap_cons, ih]

/-- Claim C4 (amended): the duplicated reconstruction routines agree only on
restricted inputs; with no relations, way ids all distinct, and every
building-tagged way closed, with at least four node references, all of them
resolvable, the two handlers produce the same geometry sequence. -/
theorem c4_equiv_restricted (inp : OsmInput)
    (hnorel : inp.rels = [])
    (hnodup : (inp.ways.map OsmWay.id).Nodup)
    (hbld : ∀ w ∈ inp.ways, hasTag w.tags "building" →
        4 ≤ w.nodes.length ∧ isClosedWay w.nodes ∧
          ∀ nid ∈ w.nodes, (List.lookup nid (nodeIndexOf inp)).isSome) :
    singlePassGeoms inp = twoPassGeoms inp := by
  have hsingle : singlePassGeoms inp =
      inp.ways.filterMap
        (fun w => (bhWayOpt (nodeIndexOf inp) w).map BHBuilding.geometry) := by
    unfold singlePassGeoms singlePassBuildings bhApply
    rw [hnorel, List.foldl_nil, foldl_bhWay_buildings]
    simp [List.map_filterMap]
  have hrels : (bghFromInput inp).relations_cache = [] :=
    bghFromInput_relations_cache inp hnorel
  have htwo : twoPassGeoms inp =
      inp.ways.filterMap (fun w =>
        if decide (w.id ∈ requiredWaysOf inp) then
          (wayPassOpt (bghFromInput inp).nodes_cache ∅
            (w.id, ⟨w.nodes, w.tags⟩)).map Building.geometry
        else none) := by
    unfold twoPassGeoms twoPassBuildings
    rw [getGeodataframe_eq, hrels]
    simp only [List.map_nil, List.filterMap_nil, List.nil_append]
    have hrp : (relationsPass (bghFromInput inp).nodes_cache
        (bghFromInput inp).ways_cache ([] : List RelData)).1 = ∅ := rfl
    rw [hrp, bghFromInput_ways_cache inp hnodup, List.filterMap_map,
      filterMap_filter_if, List.map_filterMap]
    apply List.filterMap_congr
    intro w _
    by_cases hreq : decide (w.id ∈ requiredWaysOf inp) = true <;>
      simp [hreq, Function.comp]
  rw [hsingle, htwo]
  apply List.filterMap_congr
  intro w hw
  by_cases hb : hasTag w.tags "building"
  · obtain ⟨h4, hclosed, hres⟩ := hbld w hw hb
    have h2 : 2 < w.nodes.length := by omega
    obtain ⟨ps, hps, hlen⟩ := resolveAllPoints_total (nodeIndexOf inp) w.nodes hres
    have hreq : w.id ∈ requiredWaysOf inp :=
      mem_requiredWays_of_building hnorel hw hb
    have hpts : resolvePoints (bghFromInput inp).nodes_cache w.nodes = ps :=
      resolvePoints_of_resolveAll (bghFromInput_nodes_lookup inp) w.nodes ps
        (fun nid hn => mem_requiredNodes_of hw hreq hn) hps
    have hpslen : 4 ≤ ps.length := by omega
    have hl : bhWayOpt (nodeIndexOf inp) w =
        some ⟨"way/" ++ toString w.id, Geom.poly ps [],
          tagsGet w.tags "name"⟩ := by
      simp [bhWayOpt, hclosed, h2, hps, hb]
    have hr : wayPassOpt (bghFromInput inp).nodes_cache ∅
        (w.id, ⟨w.nodes, w.tags⟩) = some ⟨Geom.poly ps [], w.tags⟩ := by
      simp [wayPassOpt, hb, hpts, hpslen]
    simp [hl, hr, hreq]
  · have hl : bhWayOpt (nodeIndexOf inp) w = none := by
      unfold bhWayOpt
      split
      · rcases hresv : resolveAllPoints (nodeIndexOf inp) w.nodes with _ | coords
        · rfl
        · simp [hb]
      · rfl
    have hr : wayPassOpt (bghFromInput inp).nodes_cache ∅
        (w.id, ⟨w.nodes, w.tags⟩) = none := by
      simp [wayPassOpt, hb]
    simp [hl, hr]

/-- A single closed building way with resolvable nodes: input on which the
two reconstruction routines agree. -/
def c4WitInput : OsmInput :=
  ⟨[⟨1, (0, 0)⟩, ⟨2, (10, 0)⟩, ⟨3, (10, 10)⟩, ⟨4, (0, 10)⟩],
   [⟨401, [1, 2, 3, 4, 1], [("building", "yes")]⟩],
   []⟩

theorem c4_witness : singlePassGeoms c4WitInput = twoPassGeoms c4WitInput :=
  c4_equiv_restricted c4WitInput (by decide) (by decide) (by decide)

/-! ## The shared CSV results file and its two writers

`utils.save_results` and `benchmark_utils.save_results` both append to
`UseCasesManagement/results/benchmark_results.csv` (each computes the same
path relative to its own location in `scripts/`).  CSV cells are strings; a
result dictionary is an association list from field names to cell values.
A file is `none` while it does not exist, otherwise its list of rows. -/

abbrev ResultDict := List (String × String)

abbrev CsvFile := Option (List (List String))

/-- `CSV_HEADER` of `utils.py`: six fields. -/
def utilsHeader : List String :=
  ["use_case", "technology", "operation_description", "test_dataset",
   "execution_time_s", "notes"]

/-- `fieldnames` of `benchmark_utils.save_results`: eight fields. -/
def benchFieldnames : List String :=
  ["use_case", "technology", "operation_description", "test_dataset",
   "execution_time_s", "num_runs", "output_size_mb", "notes"]

/-- `csv.DictWriter(...).writerow(rowdict)` with the default
`extrasaction='raise'`: raises `ValueError` (`none`) when the dictionary
holds a key outside `fieldnames`; otherwise emits the row in field order,
missing fields filled with the default `restval=None`, which the csv module
writes as an empty cell. -/
def dictWriterRow (fieldnames : List String) (rd : ResultDict) :
    Option (List String) :=
  if rd.all (fun kv => fieldnames.contains kv.1) then
    some (fieldnames.map (fun f => (List.lookup f rd).getD ""))
  else none

/-- `utils.save_results`: `open(..., 'a')` creates the file, the header is
written only when the file did not exist, then `writerow` runs; a
`ValueError` escaping `writerow` is caught by the surrounding `try/except`,
so the call returns normally but no data row is appended.  The result is
the file contents after the call. -/
def utilsSaveResults (file : CsvFile) (rd : ResultDict) : List (List String) :=
  let base := (file.getD []) ++ (if file.isSome then [] else [utilsHeader])
  match dictWriterRow utilsHeader rd with
  | some row => base ++ [row]
  | none => base

/-- The row `benchmark_utils.save_results` writes:
`{field: result_data.get(field, 'N/A') for field in fieldnames}`. -/
def benchRowOf (rd : ResultDict) : List String :=
  benchFieldnames.map (fun f => (List.lookup f rd).getD "N/A")

/-- `benchmark_utils.save_results`: header only when the file did not
exist, then always exactly one data row. -/
def benchSaveResults (file : CsvFile) (rd : ResultDict) : List (List String) :=
  ((file.getD []) ++ (if file.isSome then [] else [benchFieldnames])) ++
    [benchRowOf rd]

/-- The `result_data` dictionary built in
`usecase1_pyosmium_benchmark.run_pyosmium_ingestion`; the key set is fixed
by the source, the values are computed at run time. -/
def usecase1ResultData (operation dataset timeS notes : String) : ResultDict :=
  [("use_case", "1. Ingestion & Filtering"),
   ("technology", "PyOsmium + GeoPandas"),
   ("operation_description", operation),
   ("test_dataset", dataset),
   ("execution_time_s", timeS),
   ("output_size_mb", "N/A"),
   ("notes", notes)]

/-- Claim C2 (code bug): the dictionary of
`usecase1_pyosmium_benchmark.run_pyosmium_ingestion` carries the key
`output_size_mb`, which is not among the six fields of `utils.CSV_HEADER`;
`DictWriter.writerow` raises `ValueError`, the `except` block swallows it,
and no row is appended to the results file — for any run-time values and
any existing file contents the file is left unchanged, and on a fresh file
only the header is written. -/
theorem c2_no_row_appended (c : List (List String))
    (operation dataset timeS notes : String) :
    utilsSaveResults (some c) (usecase1ResultData operation dataset timeS notes) = c ∧
      utilsSaveResults none (usecase1ResultData operation dataset timeS notes) =
        [utilsHeader] := by
  have hmem : ("output_size_mb", "N/A") ∈
      usecase1ResultData operation dataset timeS notes := by
    simp [usecase1ResultData]
  have hnotc : (utilsHeader.contains "output_size_mb") = false := by decide
  have hall : (usecase1ResultData operation dataset timeS notes).all
      (fun kv => utilsHeader.contains kv.1) = false :=
    List.all_eq_false.mpr ⟨_, hmem, by decide⟩
  refine ⟨?_, ?_⟩ <;>
    (simp only [utilsSaveResults, dictWriterRow]; rw [hall]; simp)

/-- Claim C6 (counterexample): the two writers do not share one schema —
their ordered field-name lists differ, and a file touched by both holds
rows of length 6 and rows of length 8. -/
theorem c6_counterexample :
    utilsHeader ≠ benchFieldnames ∧
      (∃ r ∈ benchSaveResults
          (some (utilsSaveResults none
            [("use_case", "a"), ("technology", "t"),
             ("operation_description", "o"), ("test_dataset", "d"),
             ("execution_time_s", "1.0"), ("notes", "n")]))
          [("use_case", "b")], r.length = 6) ∧
      (∃ r ∈ benchSaveResults
          (some (utilsSaveResults none
            [("use_case", "a"), ("technology", "t"),
             ("operation_description", "o"), ("test_dataset", "d"),
             ("execution_time_s", "1.0"), ("notes", "n")]))
          [("use_case", "b")], r.length = 8) := by
  decide

/-- Claim C6 (amended): each writer appends rows of its own fixed schema —
six ordered fields for `utils.save_results`, eight for
`benchmark_utils.save_results` — and each writes its header exactly when
the file does not yet exist; the two schemas differ, so the rows of the
shared file do not all follow one schema. -/
theorem c6_per_writer_schema (c : List (List String)) (rd : ResultDict) :
    utilsSaveResults none rd =
        [utilsHeader] ++ (dictWriterRow utilsHeader rd).toList ∧
      utilsSaveResults (some c) rd = c ++ (dictWriterRow utilsHeader rd).toList ∧
      (∀ row ∈ (dictWriterRow utilsHeader rd).toList, row.length = 6) ∧
      benchSaveResults none rd = [benchFieldnames, benchRowOf rd] ∧
      benchSaveResults (some c) rd = c ++ [benchRowOf rd] ∧
      (benchRowOf rd).length = 8 ∧
      utilsHeader ≠ benchFieldnames := by
  refine ⟨?_, ?_, ?_, by simp [benchSaveResults], by simp [benchSaveResults],
    by simp [benchRowOf, benchFieldnames], by decide⟩
  · rcases h : dictWriterRow utilsHeader rd with _ | row <;>
      simp [utilsSaveResults, h]
  · rcases h : dictWriterRow utilsHeader rd with _ | row <;>
      simp [utilsSaveResults, h]
  · intro row hrow
    rcases h : dictWriterRow utilsHeader rd with _ | row' <;> rw [h] at hrow
    · simp at hrow
    · have hform : utilsHeader.map (fun f => (List.lookup f rd).getD "") = row' := by
        unfold dictWriterRow at h
        split at h
        · simpa using h
        · exact absurd h (by simp)
      rw [show row = row' from by simpa using hrow, ← hform]
      simp [utilsHeader]

/-- Claim C10: `benchmark_utils.save_results` always writes a row of exactly
its eight schema fields: one row is always appended, a key outside the
schema is ignored, and with an empty dictionary every field is `'N/A'`. -/
theorem c10_row_total (file : CsvFile) (rd : ResultDict) (k v : String)
    (hk : k ∉ benchFieldnames) :
    (benchRowOf rd).length = 8 ∧
      (benchSaveResults file rd).getLast? = some (benchRowOf rd) ∧
      benchRowOf ((k, v) :: rd) = benchRowOf rd ∧
      benchRowOf [] = List.replicate 8 "N/A" := by
  refine ⟨by simp [benchRowOf, benchFieldnames], ?_, ?_, by decide⟩
  · simp [benchSaveResults]
  · unfold benchRowOf
    apply List.map_congr_left
    intro f hf
    have hne : (f == k) = false :=
      beq_eq_false_iff_ne.mpr (fun he => hk (he ▸ hf))
    simp [List.lookup, hne]

theorem c10_witness :
    (benchRowOf [("use_case", "u"), ("bogus", "b")]).length = 8 ∧
      (benchSaveResults (some []) [("use_case", "u"), ("bogus", "b")]).getLast? =
        some (benchRowOf [("use_case", "u"), ("bogus", "b")]) ∧
      benchRowOf (("bogus", "b") :: [("use_case", "u"), ("bogus", "b")]) =
        benchRowOf [("use_case", "u"), ("bogus", "b")] ∧
      benchRowOf [] = List.replicate 8 "N/A" :=
  c10_row_total (some []) [("use_case", "u"), ("bogus", "b")] "bogus" "b"
    (by decide)

/-! ## The benchmark drivers of `uc1&2/`

`run_duckdb_ingestion_and_filtering` and
`run_pyosmium_ingestion_and_filtering` are embedded from the point where
the first timed run starts.  `outcomes i` is the duration the `i`-th
execution of the timed operation would take, `none` when it raises.  The
values a run computes outside the timed operation (place name, dataset
name, output size, feature count) are collected in `BenchEnv`.  Each
driver returns the rows it hands to `save_results` and the number of times
the timed operation was executed. -/

/-- One row handed to `benchmark_utils.save_results`, with its eight
fields. -/
structure BenchRow where
  use_case : String
  technology : String
  operation_description : String
  test_dataset : String
  execution_time_s : ℚ
  num_runs : Nat
  output_size_mb : String
  notes : String
deriving DecidableEq, Repr

/-- Run-time values of a benchmark invocation that do not depend on the
timed loop. -/
structure BenchEnv where
  placeClean : String
  dataset : String
  outputSizeMb : String
  numFeatures : Nat
deriving DecidableEq, Repr

/-- The `cold_result` dictionary of the duckdb script. -/
def duckColdRow (e : BenchEnv) (t : ℚ) : BenchRow :=
  ⟨"1&2. Ingestion & Filtering (OSM Data)", "DuckDB + Quackosm",
   "Extract " ++ e.placeClean ++ " buildings from PBF", e.dataset, t, 1,
   e.outputSizeMb,
   "Found " ++ toString e.numFeatures ++ " buildings for " ++ e.placeClean ++
     ". Cold start (first run)."⟩

/-- The `hot_result` dictionary of the duckdb script. -/
def duckHotRow (e : BenchEnv) (t : ℚ) (n : Nat) : BenchRow :=
  ⟨"1&2. Ingestion & Filtering (OSM Data)", "DuckDB + Quackosm",
   "Extract " ++ e.placeClean ++ " buildings from PBF", e.dataset, t, n,
   e.outputSizeMb,
   "Found " ++ toString e.numFeatures ++ " buildings for " ++ e.placeClean ++
     ". Average of " ++ toString n ++ " hot cache runs."⟩

/-- The `cold_result` dictionary of the pyosmium script. -/
def pyoColdRow (e : BenchEnv) (t : ℚ) : BenchRow :=
  ⟨"1&2. Ingestion & Filtering (OSM Data)", "PyOsmium + GeoPandas",
   "Extract " ++ e.placeClean ++ " buildings from PBF", e.dataset, t, 1,
   e.outputSizeMb,
   "Found " ++ toString e.numFeatures ++ " buildings. Cold start (first run)."⟩

/-- The `hot_result` dictionary of the pyosmium script. -/
def pyoHotRow (e : BenchEnv) (t : ℚ) (n : Nat) : BenchRow :=
  ⟨"1&2. Ingestion & Filtering (OSM Data)", "PyOsmium + GeoPandas",
   "Extract " ++ e.placeClean ++ " buildings from PBF", e.dataset, t, n,
   e.outputSizeMb,
   "Found " ++ toString e.numFeatures ++ " buildings. Average of " ++
     toString n ++ " hot cache runs."⟩

/-- `run_duckdb_ingestion_and_filtering`: a failing cold run prints and
returns (one execution, no rows); otherwise the hot loop — guarded by
`if num_runs > 1` and wrapped per iteration in `try/except` — runs
`num_runs - 1` times keeping the successful durations, and the saving
section appends the cold row and, when any hot run succeeded, the averaged
hot row. -/
def duckdbRun (e : BenchEnv) (numRuns : Nat) (outcomes : Nat → Option ℚ) :
    List BenchRow × Nat :=
  match outcomes 0 with
  | none => ([], 1)
  | some coldT =>
      let hotTimes : List ℚ :=
        if 1 < numRuns then
          (List.range (numRuns - 1)).filterMap (fun i => outcomes (i + 1))
        else []
      let execs : Nat := if 1 < numRuns then 1 + (numRuns - 1) else 1
      let hotRows : List BenchRow :=
        if 0 < hotTimes.length then
          [duckHotRow e (hotTimes.sum / hotTimes.length) hotTimes.length]
        else []
      ([duckColdRow e coldT] ++ hotRows, execs)

/-- The pyosmium hot loop has no `try/except`: the durations before the
first raising run, and whether a run raised. -/
def collectUntilFailure : List (Option ℚ) → List ℚ × Bool
  | [] => ([], false)
  | none :: _ => ([], true)
  | some t :: rest =>
      let r := collectUntilFailure rest
      (t :: r.1, r.2)

/-- `run_pyosmium_ingestion_and_filtering`: a failing cold run returns with
no rows; the whole saving section sits inside `if num_runs > 1`, so with
`num_runs == 1` nothing is saved at all; a raising hot run propagates out
of the function before anything is saved. -/
def pyosmiumRun (e : BenchEnv) (numRuns : Nat) (outcomes : Nat → Option ℚ) :
    List BenchRow × Nat :=
  match outcomes 0 with
  | none => ([], 1)
  | some coldT =>
      if 1 < numRuns then
        let hot := collectUntilFailure
          ((List.range (numRuns - 1)).map (fun i => outcomes (i + 1)))
        if hot.2 then ([], 1 + hot.1.length + 1)
        else
          let hotTimes := hot.1
          ([pyoColdRow e coldT] ++
            (if 0 < hotTimes.length then
              [pyoHotRow e (hotTimes.sum / hotTimes.length) hotTimes.length]
            else []), 1 + (numRuns - 1))
      else ([], 1)

/-- Claim C7: when the cold-start run raises, both drivers return
immediately — the operation was executed exactly once, it is not retried,
and no row reaches the results file. -/
theorem c7_cold_failure_aborts (e : BenchEnv) (numRuns : Nat)
    (outcomes : Nat → Option ℚ) (h : outcomes 0 = none) :
    duckdbRun e numRuns outcomes = ([], 1) ∧
      pyosmiumRun e numRuns outcomes = ([], 1) := by
  unfold duckdbRun pyosmiumRun
  rw [h]
  exact ⟨rfl, rfl⟩

def c7Env : BenchEnv := ⟨"Milan", "italy-latest.osm.pbf", "12.5", 50⟩

theorem c7_witness :
    duckdbRun c7Env 100 (fun _ => none) = ([], 1) ∧
      pyosmiumRun c7Env 100 (fun _ => none) = ([], 1) :=
  c7_cold_failure_aborts c7Env 100 (fun _ => none) rfl

def c5Env : BenchEnv := ⟨"Milan", "lombardy-latest.osm.pbf", "3.1", 42⟩

/-- Claim C5 (counterexample): invoking the pyosmium driver with
`num_runs = 1` and a successful run records no row at all — in particular
no cold-start row with `num_runs` equal to 1 — because its whole saving
section sits inside `if num_runs > 1`. -/
theorem c5_counterexample :
    ¬ ∃ r ∈ (pyosmiumRun c5Env 1 (fun _ => some 5)).1, r.num_runs = 1 := by
  decide

theorem filterMap_some_comp {α β : Type} (g : α → β) :
    ∀ l : List α, l.filterMap (fun a => some (g a)) = l.map g := by
  intro l
  induction l with
  | nil => rfl
  | cons a rest ih => simp [List.filterMap_cons, ih]

theorem map_some_decompose {α β : Type} (g : α → β) :
    ∀ l : List α,
      l.map (fun a => some (g a)) = (l.map g).map (fun b => some b) := by
  intro l
  simp [List.map_map, Function.comp_def]

theorem collectUntilFailure_map_some :
    ∀ ts : List ℚ,
      collectUntilFailure (ts.map (fun t => some t)) = (ts, false) := by
  intro ts
  induction ts with
  | nil => rfl
  | cons t rest ih => simp [collectUntilFailure, ih]

/-- Claim C5 (amended): with every execution succeeding, the duckdb driver
records the cold run as a row with `num_runs = 1` for every
`num_runs >= 1` and, when `num_runs > 1`, one hot row whose time is the
arithmetic mean of the `num_runs - 1` hot times; the pyosmium driver
records the same two rows only when `num_runs > 1` and records nothing at
all when `num_runs = 1`. -/
theorem c5_cold_hot_rows (e : BenchEnv) (numRuns : Nat) (f : Nat → ℚ)
    (h1 : 1 ≤ numRuns) :
    (duckdbRun e numRuns (fun i => some (f i))).1 =
        duckColdRow e (f 0) ::
          (if 1 < numRuns then
            [duckHotRow e
              (((List.range (numRuns - 1)).map (fun i => f (i + 1))).sum /
                ((numRuns - 1 : Nat) : ℚ)) (numRuns - 1)]
          else []) ∧
      (pyosmiumRun e numRuns (fun i => some (f i))).1 =
        (if 1 < numRuns then
          [pyoColdRow e (f 0),
           pyoHotRow e
             (((List.range (numRuns - 1)).map (fun i => f (i + 1))).sum /
               ((numRuns - 1 : Nat) : ℚ)) (numRuns - 1)]
        else []) := by
  have hmap : (List.range (numRuns - 1)).filterMap (fun i => some (f (i + 1))) =
      (List.range (numRuns - 1)).map (fun i => f (i + 1)) :=
    filterMap_some_comp _ _
  have hlen : ((List.range (numRuns - 1)).map (fun i => f (i + 1))).length =
      numRuns - 1 := by simp
  by_cases hn : 1 < numRuns
  · have hpos : 0 < numRuns - 1 := by omega
    constructor
    · simp only [duckdbRun, if_pos hn, hmap]
      simp [hlen, hpos]
    · simp only [pyosmiumRun, if_pos hn]
      rw [map_some_decompose (fun i => f (i + 1)) (List.range (numRuns - 1)),
        collectUntilFailure_map_some]
      simp [hlen, hpos, hn]
  · constructor
    · simp only [duckdbRun, if_neg hn]
      simp [hn]
    · simp only [pyosmiumRun, if_neg hn]

def c5WitF : Nat → ℚ := fun i => (i : ℚ)

theorem c5_witness :
    (duckdbRun c5Env 3 (fun i => some (c5WitF i))).1 =
        duckColdRow c5Env (c5WitF 0) ::
          (if 1 < 3 then
            [duckHotRow c5Env
              (((List.range (3 - 1)).map (fun i => c5WitF (i + 1))).sum /
                ((3 - 1 : Nat) : ℚ)) (3 - 1)]
          else []) ∧
      (pyosmiumRun c5Env 3 (fun i => some (c5WitF i))).1 =
        (if 1 < 3 then
          [pyoColdRow c5Env (c5WitF 0),
           pyoHotRow c5Env
             (((List.range (3 - 1)).map (fun i => c5WitF (i + 1))).sum /
               ((3 - 1 : Nat) : ℚ)) (3 - 1)]
        else []) :=
  c5_cold_hot_rows c5Env 3 c5WitF (by norm_num)

end OsmBench
